import Mathlib

/-!
# Shallow embedding of the secret-santa service core (src/main.rs)

The Rust program keeps one `DataBase` value behind a mutex:
`users : HashMap<Id, String>`, `users_max_id`, `groups : HashMap<Id, bool>`,
`groups_max_id`, and `user_groups : HashMap<UserGroupId, UserGroupProps>`.
Each HTTP handler acquires the lock, validates, optionally mutates, and
returns a response.  We model each handler as a pure function from the
decoded request fields and the database to a response paired with the new
database.  `HashMap`s become association lists; insertion replaces any
existing binding of the key, removal drops every binding of the key, so
lookups agree with the Rust map semantics.  Points where the Rust code
calls `.unwrap()` on data that can genuinely be absent (the group lookups
inside `/user/delete`, and field extraction in `get_field`) are modelled
with `Option`, `none` standing for the panic.
-/

namespace Santa

/-- Rust: `type Id = u32`. Ids are unsigned integers; we model them as `Nat`. -/
abbrev Id := Nat

/-- Rust: `enum Access { User, Admin }`. -/
inductive Access
  | User
  | Admin
deriving DecidableEq, Repr

/-- Rust: `struct UserGroupId { user_id: Id, group_id: Id }` (the membership key). -/
structure UserGroupId where
  user_id : Id
  group_id : Id
deriving DecidableEq, Repr

/-- Rust: `struct UserGroupProps { access_level: Access, santa_id: Id }`. -/
structure UserGroupProps where
  access_level : Access
  santa_id : Id
deriving DecidableEq, Repr

/-- Association-list lookup, the model of `HashMap::get`. -/
def assocLookup {α β : Type} [DecidableEq α] (k : α) : List (α × β) → Option β
  | [] => none
  | p :: rest => if p.1 = k then some p.2 else assocLookup k rest

/-- Model of `HashMap::contains_key`. -/
def assocContains {α β : Type} [DecidableEq α] (k : α) (l : List (α × β)) : Bool :=
  (assocLookup k l).isSome

/-- Model of `HashMap::insert`: the new binding shadows (replaces) any old one. -/
def assocInsert {α β : Type} [DecidableEq α] (k : α) (v : β) (l : List (α × β)) :
    List (α × β) :=
  (k, v) :: l.filter (fun p => decide (p.1 ≠ k))

/-- Model of `HashMap::remove` (the returned old value is unused by the program). -/
def assocErase {α β : Type} [DecidableEq α] (k : α) (l : List (α × β)) :
    List (α × β) :=
  l.filter (fun p => decide (p.1 ≠ k))

/-- Rust: `struct DataBase` — the whole shared state. -/
structure DataBase where
  users : List (Id × String)
  users_max_id : Id
  groups : List (Id × Bool)
  groups_max_id : Id
  user_groups : List (UserGroupId × UserGroupProps)
deriving DecidableEq, Repr

/-- The initial database built in `main`: all maps empty, both counters 0. -/
def emptyDB : DataBase :=
  { users := [], users_max_id := 0, groups := [], groups_max_id := 0, user_groups := [] }

/-- A handler's response: `response_data` with a numeric payload (`{"id": …}` or
`{"group_id": …}`), `response_empty`, or `response_error` with the message. -/
inductive Resp
  | data (payload : Id)
  | empty
  | error (msg : String)
deriving DecidableEq, Repr

/-- Rust `user_create`: reject an empty name with "bad name", otherwise store the
user under `users_max_id`, advance the counter, and return the id. -/
def user_create (name : String) (db : DataBase) : Resp × DataBase :=
  if 0 < name.length then
    let id := db.users_max_id
    (Resp.data id,
      { db with users := assocInsert id name db.users, users_max_id := db.users_max_id + 1 })
  else
    (Resp.error "bad name", db)

/-- Rust `does_user_belong_to_group`. -/
def does_user_belong_to_group (user_id group_id : Id)
    (user_groups : List (UserGroupId × UserGroupProps)) : Bool :=
  assocContains ⟨user_id, group_id⟩ user_groups

/-- Rust `count_admins`: number of memberships of the group whose level is Admin. -/
def count_admins (group_id : Id) (user_groups : List (UserGroupId × UserGroupProps)) :
    Nat :=
  (user_groups.filter
    (fun x => decide (x.1.group_id = group_id ∧ x.2.access_level = Access.Admin))).length

/-- Rust `/group/create` handler body: "no such user" if the creator is absent,
otherwise allocate `groups_max_id`, store the open group, advance the counter,
insert the creator's Admin membership (santa sentinel 0), and return the id. -/
def group_create (creator_id : Id) (db : DataBase) : Resp × DataBase :=
  if ¬ assocContains creator_id db.users then
    (Resp.error "no such user", db)
  else
    let id := db.groups_max_id
    (Resp.data id,
      { db with
        groups := assocInsert id false db.groups,
        groups_max_id := db.groups_max_id + 1,
        user_groups :=
          assocInsert ⟨creator_id, id⟩
            { access_level := Access.Admin, santa_id := 0 } db.user_groups })

/-- Rust `/group/join` handler body: group existence, then closedness, then user
existence, then duplicate membership; on success insert a User membership. -/
def group_join (user_id group_id : Id) (db : DataBase) : Resp × DataBase :=
  match assocLookup group_id db.groups with
  | none => (Resp.error "no such group", db)
  | some is_closed =>
    if is_closed then
      (Resp.error "group is closed", db)
    else if ¬ assocContains user_id db.users then
      (Resp.error "no such user", db)
    else if assocContains ⟨user_id, group_id⟩ db.user_groups then
      (Resp.error "user already in group", db)
    else
      (Resp.empty,
        { db with
          user_groups :=
            assocInsert ⟨user_id, group_id⟩
              { access_level := Access.User, santa_id := 0 } db.user_groups })

/-- Rust `/group/unadmin` handler body.  The Rust code first tests
`does_user_belong_to_group` and then `get(..).unwrap()`s the same key of the
same map; the single `match` below fuses that test with the always-successful
unwrap.  In-place mutation of `access_level` is map insertion at the same key
with `santa_id` preserved. -/
def group_unadmin (admin_id group_id : Id) (db : DataBase) : Resp × DataBase :=
  match assocLookup ⟨admin_id, group_id⟩ db.user_groups with
  | none => (Resp.error "User does not belong to this group. Try again.", db)
  | some ugp =>
    if ugp.access_level ≠ Access.Admin then
      (Resp.error "This user is not an admin.", db)
    else if count_admins group_id db.user_groups < 2 then
      (Resp.error "It is impossible to remove the last admin in a group. You can appoint a new admin and repeat or delete the whole group.", db)
    else
      (Resp.empty,
        { db with
          user_groups :=
            assocInsert ⟨admin_id, group_id⟩
              { access_level := Access.User, santa_id := ugp.santa_id } db.user_groups })

/-- Rust `/group/delete` handler body: membership check, admin check (no
last-admin check), then `retain` every membership of another group and remove
the group record. -/
def group_delete (admin_id group_id : Id) (db : DataBase) : Resp × DataBase :=
  match assocLookup ⟨admin_id, group_id⟩ db.user_groups with
  | none => (Resp.error "User does not belong to this group. Try again.", db)
  | some ugp =>
    if ugp.access_level ≠ Access.Admin then
      (Resp.error "This user is not an admin.", db)
    else
      (Resp.empty,
        { db with
          user_groups := db.user_groups.filter (fun p => decide (p.1.group_id ≠ group_id)),
          groups := assocErase group_id db.groups })

/-- The memberships of one user (Rust: `filter(|&x| x.0.user_id == user_id)`). -/
def userMemberships (user_id : Id) (l : List (UserGroupId × UserGroupProps)) :
    List (UserGroupId × UserGroupProps) :=
  l.filter (fun x => decide (x.1.user_id = user_id))

/-- Rust `closed_collect`: the user's memberships whose group is closed. -/
def closedMemberships (user_id : Id) (db : DataBase) :
    List (UserGroupId × UserGroupProps) :=
  (userMemberships user_id db.user_groups).filter
    (fun x => decide (assocLookup x.1.group_id db.groups = some true))

/-- Rust `free_collect`: the user's memberships whose group is open. -/
def openMemberships (user_id : Id) (db : DataBase) :
    List (UserGroupId × UserGroupProps) :=
  (userMemberships user_id db.user_groups).filter
    (fun x => decide (assocLookup x.1.group_id db.groups = some false))

/-- Rust `delete_vec`: keys of open-group memberships the cascade would remove
(plain member, or admin of a group with more than one admin). -/
def deleteKeys (user_id : Id) (db : DataBase) : List UserGroupId :=
  ((openMemberships user_id db).filter
    (fun x => decide (x.2.access_level = Access.User ∨
      1 < count_admins x.1.group_id db.user_groups))).map (fun x => x.1)

/-- Rust `vec`: ids of open groups whose deletion is blocked because the user is
their last admin. -/
def blockingGroups (user_id : Id) (db : DataBase) : List Id :=
  ((openMemberships user_id db).filter
    (fun x => decide (¬ (x.2.access_level = Access.User ∨
      1 < count_admins x.1.group_id db.user_groups)))).map (fun x => x.1.group_id)

/-- The error string the Rust code builds for the sole-admin block:
`"User cannot be delete from group"` then each id followed by `", "`, then
`"because he is the last admin in these groups."`. -/
def soleAdminMsg (gids : List Id) : String :=
  (gids.foldl (fun s g => s ++ toString g ++ ", ") "User cannot be delete from group")
    ++ "because he is the last admin in these groups."

/-- Rust `/user/delete` handler body.  The Rust iterators call
`groups.get(&x.0.group_id).unwrap()` while partitioning the user's memberships,
which panics if any of those groups is absent; `none` models that panic.
Otherwise: the closed-group check dominates, then the sole-admin block, then
removal of every marked membership and of the user record. -/
def user_delete (user_id : Id) (db : DataBase) : Option (Resp × DataBase) :=
  match assocLookup user_id db.users with
  | none => some (Resp.error "This user does not exist.", db)
  | some _ =>
    if (userMemberships user_id db.user_groups).all
        (fun x => (assocLookup x.1.group_id db.groups).isSome) then
      if 0 < (closedMemberships user_id db).length then
        some (Resp.error "User have closed groups. So he was deleted from opened groups.", db)
      else if blockingGroups user_id db = [] then
        some (Resp.empty,
          { db with
            user_groups :=
              db.user_groups.filter (fun p => decide (p.1 ∉ deleteKeys user_id db)),
            users := assocErase user_id db.users })
      else
        some (Resp.error (soleAdminMsg (blockingGroups user_id db)), db)
    else none

/-- The eight documented operations (the two list endpoints do not mutate). -/
inductive Op
  | createUser (name : String)
  | createGroup (creator_id : Id)
  | joinGroup (user_id group_id : Id)
  | demoteAdmin (admin_id group_id : Id)
  | deleteGroup (admin_id group_id : Id)
  | deleteUser (user_id : Id)
  | listUsers
  | listGroups

/-- The state transition an operation performs.  A `/user/delete` request whose
iteration would panic leaves the state as it was (the mutation had not started). -/
def applyOp (op : Op) (db : DataBase) : DataBase :=
  match op with
  | Op.createUser name => (user_create name db).2
  | Op.createGroup c => (group_create c db).2
  | Op.joinGroup u g => (group_join u g db).2
  | Op.demoteAdmin a g => (group_unadmin a g db).2
  | Op.deleteGroup a g => (group_delete a g db).2
  | Op.deleteUser u =>
    match user_delete u db with
    | some r => r.2
    | none => db
  | Op.listUsers => db
  | Op.listGroups => db

/-- States reachable from the empty database by the documented operations. -/
inductive Reachable : DataBase → Prop
  | init : Reachable emptyDB
  | step {db : DataBase} (op : Op) : Reachable db → Reachable (applyOp op db)

/-- The ids returned by the successful `CreateUser` calls of an operation
sequence, in order. -/
def createdIds : List Op → DataBase → List Id
  | [], _ => []
  | op :: rest, db =>
    let ids := createdIds rest (applyOp op db)
    match op with
    | Op.createUser name =>
      match (user_create name db).1 with
      | Resp.data i => i :: ids
      | _ => ids
    | _ => ids

/-- A decoded JSON value, as far as the program inspects one. -/
inductive Json
  | str (s : String)
  | num (n : Nat)
  | nul
deriving DecidableEq, Repr

/-- Rust `Value::as_str`: `some` only on a JSON string. -/
def jsonAsStr : Json → Option String
  | Json.str s => some s
  | _ => none

/-- Model of `str::parse::<u32>` restricted to what the service needs: a
non-empty all-digit string below `2^32` parses to its value, anything else
fails. -/
def parseU32 (s : String) : Option Nat :=
  if s.data ≠ [] ∧ s.data.all Char.isDigit then
    let v := s.data.foldl (fun acc c => acc * 10 + (c.toNat - 48)) 0
    if v < 4294967296 then some v else none
  else none

/-- Rust `get_field` instantiated at integer ids:
`object.get(key).unwrap().as_str().unwrap().parse().unwrap()`.
Each `unwrap` of the chain becomes an `Option` bind; `none` marks the points
where the Rust code panics (missing field, non-string value, or parse failure). -/
def get_field (object : List (String × Json)) (key : String) : Option Nat :=
  match assocLookup key object with
  | none => none
  | some j =>
    match jsonAsStr j with
    | none => none
    | some s => parseU32 s

/-! ## Concrete states used to instantiate the theorems

Each fixture is a plain `DataBase` value; the closed-group fixtures are states
the documented operations cannot reach (no operation sets `is_closed`), which
is exactly why the spec quantifies over arbitrary states there. -/

/-- User 0 exists, is sole Admin of the open group 1, and is a plain member of
the closed group 2. -/
def dbClosedAndSole : DataBase :=
  { users := [(0, "a")], users_max_id := 1,
    groups := [(1, false), (2, true)], groups_max_id := 3,
    user_groups := [(⟨0, 1⟩, ⟨Access.Admin, 0⟩), (⟨0, 2⟩, ⟨Access.User, 0⟩)] }

/-- User 0 is sole Admin of the open group 0 and a plain member of the open
group 1; no closed groups. -/
def dbSoleAdmin : DataBase :=
  { users := [(0, "a"), (1, "b")], users_max_id := 2,
    groups := [(0, false), (1, false)], groups_max_id := 2,
    user_groups := [(⟨0, 0⟩, ⟨Access.Admin, 0⟩), (⟨0, 1⟩, ⟨Access.User, 0⟩),
      (⟨1, 1⟩, ⟨Access.Admin, 0⟩)] }

/-- User 0 exists and their only membership is in the closed group 0. -/
def dbClosedOnly : DataBase :=
  { users := [(0, "a")], users_max_id := 1,
    groups := [(0, true)], groups_max_id := 1,
    user_groups := [(⟨0, 0⟩, ⟨Access.User, 0⟩)] }

/-- User 0 is the sole Admin of group 0. -/
def dbLastAdmin : DataBase :=
  { users := [(0, "a")], users_max_id := 1,
    groups := [(0, false)], groups_max_id := 1,
    user_groups := [(⟨0, 0⟩, ⟨Access.Admin, 0⟩)] }

/-- User 0 is the Admin of group 0, user 1 a plain member. -/
def dbAdminAndMember : DataBase :=
  { users := [(0, "a"), (1, "b")], users_max_id := 2,
    groups := [(0, false)], groups_max_id := 1,
    user_groups := [(⟨0, 0⟩, ⟨Access.Admin, 0⟩), (⟨1, 0⟩, ⟨Access.User, 0⟩)] }

/-- The state reached by `CreateUser "a"` then `CreateGroup 0`. -/
def dbTwoSteps : DataBase :=
  applyOp (Op.createGroup 0) (applyOp (Op.createUser "a") emptyDB)

/-! ## Association-list lemmas -/

theorem assocLookup_eq_none_iff {α β : Type} [DecidableEq α] {k : α}
    {l : List (α × β)} : assocLookup k l = none ↔ ∀ p ∈ l, p.1 ≠ k := by
  induction l with
  | nil => simp [assocLookup]
  | cons p rest ih =>
    by_cases h : p.1 = k
    · simp [assocLookup, h]
    · simp [assocLookup, h, ih]

theorem assocLookup_isSome_iff {α β : Type} [DecidableEq α] {k : α}
    {l : List (α × β)} : (assocLookup k l).isSome ↔ ∃ p ∈ l, p.1 = k := by
  induction l with
  | nil => simp [assocLookup]
  | cons p rest ih =>
    by_cases h : p.1 = k
    · simp [assocLookup, h]
    · simp [assocLookup, h] at ih ⊢
      rw [ih]

theorem assocLookup_some_mem {α β : Type} [DecidableEq α] {k : α} {v : β}
    {l : List (α × β)} (h : assocLookup k l = some v) : (k, v) ∈ l := by
  induction l with
  | nil => simp [assocLookup] at h
  | cons p rest ih =>
    by_cases hk : p.1 = k
    · simp [assocLookup, hk] at h
      subst hk; subst h
      exact List.mem_cons_self _ _
    · simp [assocLookup, hk] at h
      exact List.mem_cons_of_mem _ (ih h)

theorem filter_keyne_eq_self {α β : Type} [DecidableEq α] {k : α}
    {l : List (α × β)} (h : ∀ p ∈ l, p.1 ≠ k) :
    l.filter (fun p => decide (p.1 ≠ k)) = l :=
  List.filter_eq_self.mpr fun p hp => decide_eq_true (h p hp)

theorem assocInsert_of_lookup_none {α β : Type} [DecidableEq α] {k : α}
    {l : List (α × β)} (h : assocLookup k l = none) (v : β) :
    assocInsert k v l = (k, v) :: l := by
  unfold assocInsert
  rw [filter_keyne_eq_self (assocLookup_eq_none_iff.mp h)]

theorem assocLookup_filter {α β : Type} [DecidableEq α] {k : α}
    {l : List (α × β)} {q : α × β → Bool} (hq : ∀ v : β, q (k, v) = true) :
    assocLookup k (l.filter q) = assocLookup k l := by
  induction l with
  | nil => rfl
  | cons p rest ih =>
    by_cases hk : p.1 = k
    · have hp : q p = true := by
        have : p = (k, p.2) := by
          cases p; simp at hk; simp [hk]
        rw [this]; exact hq p.2
      simp [List.filter_cons, hp, assocLookup, hk]
    · by_cases hp : q p = true
      · simp [List.filter_cons, hp, assocLookup, hk, ih]
      · simp only [Bool.not_eq_true] at hp
        simp [List.filter_cons, hp, assocLookup, hk, ih]

theorem assocLookup_insert {α β : Type} [DecidableEq α] (k k' : α) (v : β)
    (l : List (α × β)) :
    assocLookup k (assocInsert k' v l) =
      if k' = k then some v else assocLookup k l := by
  by_cases h : k' = k
  · simp [assocInsert, assocLookup, h]
  · have h2 : assocLookup k (l.filter (fun p => decide (p.1 ≠ k'))) = assocLookup k l :=
      assocLookup_filter (fun w => decide_eq_true (fun hkk => h (hkk.symm)))
    rw [if_neg h]
    show (if (k', v).1 = k then some v
      else assocLookup k (l.filter (fun p => decide (p.1 ≠ k')))) = assocLookup k l
    rw [if_neg h, h2]

/-! ## Lemmas about `count_admins` -/

/-- The Boolean predicate `count_admins` filters with. -/
def adminP (group_id : Id) (x : UserGroupId × UserGroupProps) : Bool :=
  decide (x.1.group_id = group_id ∧ x.2.access_level = Access.Admin)

theorem count_admins_eq_countP (g : Id) (l : List (UserGroupId × UserGroupProps)) :
    count_admins g l = l.countP (adminP g) :=
  (List.countP_eq_length_filter (adminP g) l).symm

theorem count_admins_cons (g : Id) (x : UserGroupId × UserGroupProps)
    (l : List (UserGroupId × UserGroupProps)) :
    count_admins g (x :: l) = count_admins g l + if adminP g x then 1 else 0 := by
  rw [count_admins_eq_countP, count_admins_eq_countP, List.countP_cons]

theorem count_admins_eq_zero {g : Id} {l : List (UserGroupId × UserGroupProps)}
    (h : ∀ x ∈ l, x.1.group_id ≠ g) : count_admins g l = 0 := by
  rw [count_admins_eq_countP]
  refine List.countP_eq_zero.mpr fun x hx => ?_
  simp only [adminP, decide_eq_true_eq, not_and]
  exact fun he => absurd he (h x hx)

theorem count_admins_filter_le (g : Id) (q : UserGroupId × UserGroupProps → Bool)
    (l : List (UserGroupId × UserGroupProps)) :
    count_admins g (l.filter q) ≤ count_admins g l := by
  rw [count_admins_eq_countP, count_admins_eq_countP]
  exact (List.filter_sublist l).countP_le _

theorem count_admins_filter_eq {g : Id} {q : UserGroupId × UserGroupProps → Bool}
    {l : List (UserGroupId × UserGroupProps)}
    (h : ∀ x ∈ l, adminP g x = true → q x = true) :
    count_admins g (l.filter q) = count_admins g l := by
  rw [count_admins_eq_countP, count_admins_eq_countP, List.countP_filter]
  refine Nat.le_antisymm ?_ ?_
  · exact List.countP_mono_left fun x hx hpq => ((Bool.and_eq_true _ _).mp hpq).1
  · exact List.countP_mono_left fun x hx hp =>
      (Bool.and_eq_true _ _).mpr ⟨hp, h x hx hp⟩

/-! ## The inductive invariant of reachable states -/

/-- All facts needed to carry the reachability induction: counters bound the
stored ids, every stored group is open, memberships reference existing users
and groups, and each group has at most one Admin membership while each stored
group has at least one. -/
structure Inv (db : DataBase) : Prop where
  users_lt : ∀ p ∈ db.users, p.1 < db.users_max_id
  groups_lt : ∀ p ∈ db.groups, p.1 < db.groups_max_id
  groups_open : ∀ p ∈ db.groups, p.2 = false
  ref_user : ∀ m ∈ db.user_groups, (assocLookup m.1.user_id db.users).isSome = true
  ref_group : ∀ m ∈ db.user_groups, (assocLookup m.1.group_id db.groups).isSome = true
  admin_le : ∀ g : Id, count_admins g db.user_groups ≤ 1
  admin_pos : ∀ p ∈ db.groups, 1 ≤ count_admins p.1 db.user_groups

theorem Inv.emptyDB : Inv emptyDB := by
  constructor <;> simp [Santa.emptyDB, count_admins]

theorem Inv.membership_group_lt {db : DataBase} (hI : Inv db)
    {m : UserGroupId × UserGroupProps} (hm : m ∈ db.user_groups) :
    m.1.group_id < db.groups_max_id := by
  obtain ⟨p, hp, hpk⟩ := assocLookup_isSome_iff.mp (hI.ref_group m hm)
  exact hpk ▸ hI.groups_lt p hp

theorem Inv.lookup_fresh_group_none {db : DataBase} (hI : Inv db) :
    assocLookup db.groups_max_id db.groups = none :=
  assocLookup_eq_none_iff.mpr fun p hp => Nat.ne_of_lt (hI.groups_lt p hp)

theorem Inv.no_membership_fresh_group {db : DataBase} (hI : Inv db)
    {k : UserGroupId} (hk : k.group_id = db.groups_max_id) :
    assocLookup k db.user_groups = none := by
  refine assocLookup_eq_none_iff.mpr fun _m hm heq => ?_
  have hlt := hI.membership_group_lt hm
  rw [heq, hk] at hlt
  exact Nat.lt_irrefl _ hlt

theorem Inv.count_fresh_group_zero {db : DataBase} (hI : Inv db) :
    count_admins db.groups_max_id db.user_groups = 0 :=
  count_admins_eq_zero fun _m hm => Nat.ne_of_lt (hI.membership_group_lt hm)

/-! ## Invariant preservation by each operation -/

theorem inv_user_create (name : String) {db : DataBase} (hI : Inv db) :
    Inv (user_create name db).2 := by
  unfold user_create
  by_cases h : 0 < name.length
  · rw [if_pos h]
    refine ⟨?_, ?_, ?_, ?_, ?_, ?_, ?_⟩ <;> simp only []
    · intro p hp
      rcases List.mem_cons.mp hp with hp | hp
      · rw [hp]; exact Nat.lt_succ_self _
      · exact Nat.lt_succ_of_lt (hI.users_lt p (List.mem_of_mem_filter hp))
    · exact hI.groups_lt
    · exact hI.groups_open
    · intro m hm
      rw [assocLookup_insert]
      by_cases hk : db.users_max_id = m.1.user_id
      · rw [if_pos hk]; rfl
      · rw [if_neg hk]; exact hI.ref_user m hm
    · exact hI.ref_group
    · exact hI.admin_le
    · exact hI.admin_pos
  · rw [if_neg h]
    exact hI

theorem assocLookup_cons {α β : Type} [DecidableEq α] (k : α) (p : α × β)
    (l : List (α × β)) :
    assocLookup k (p :: l) = if p.1 = k then some p.2 else assocLookup k l := rfl

theorem inv_group_create (creator_id : Id) {db : DataBase} (hI : Inv db) :
    Inv (group_create creator_id db).2 := by
  unfold group_create
  split
  · exact hI
  next hc0 =>
    have hc : assocContains creator_id db.users = true := not_not.mp hc0
    have hinsG := assocInsert_of_lookup_none hI.lookup_fresh_group_none false
    have hmemN : assocLookup ⟨creator_id, db.groups_max_id⟩ db.user_groups = none :=
      hI.no_membership_fresh_group rfl
    have hinsM := assocInsert_of_lookup_none hmemN
      (β := UserGroupProps) { access_level := Access.Admin, santa_id := 0 }
    refine ⟨hI.users_lt, ?_, ?_, ?_, ?_, ?_, ?_⟩ <;> simp only [hinsG, hinsM]
    · intro p hp
      rcases List.mem_cons.mp hp with hp | hp
      · rw [hp]; exact Nat.lt_succ_self _
      · exact Nat.lt_succ_of_lt (hI.groups_lt p hp)
    · intro p hp
      rcases List.mem_cons.mp hp with hp | hp
      · rw [hp]
      · exact hI.groups_open p hp
    · intro m hm
      rcases List.mem_cons.mp hm with hm | hm
      · rw [hm]; exact hc
      · exact hI.ref_user m hm
    · intro m hm
      rcases List.mem_cons.mp hm with hm | hm
      · rw [hm]; simp [assocLookup]
      · rw [assocLookup_cons]
        by_cases hk : db.groups_max_id = m.1.group_id
        · rw [if_pos hk]; rfl
        · rw [if_neg hk]; exact hI.ref_group m hm
    · intro g
      rw [count_admins_cons]
      by_cases hg : g = db.groups_max_id
      · subst hg
        rw [hI.count_fresh_group_zero]
        split <;> omega
      · have hP : adminP g
            (⟨creator_id, db.groups_max_id⟩, ⟨Access.Admin, 0⟩) = false := by
          simp only [adminP, decide_eq_false_iff_not, not_and]
          exact fun h => absurd h.symm hg
        rw [hP]
        simpa using hI.admin_le g
    · intro p hp
      rcases List.mem_cons.mp hp with hp | hp
      · rw [hp, count_admins_cons]
        have hP : adminP db.groups_max_id
            (⟨creator_id, db.groups_max_id⟩, ⟨Access.Admin, 0⟩) = true := by
          simp [adminP]
        rw [hP]
        simp
      · rw [count_admins_cons]
        exact Nat.le_add_right_of_le (hI.admin_pos p hp)

theorem inv_group_join (user_id group_id : Id) {db : DataBase} (hI : Inv db) :
    Inv (group_join user_id group_id db).2 := by
  unfold group_join
  split
  · exact hI
  next is_closed hg =>
    split
    · exact hI
    next hc =>
      split
      · exact hI
      next hu0 =>
        split
        · exact hI
        next hdup =>
          have hu : assocContains user_id db.users = true := not_not.mp hu0
          have hnone : assocLookup ⟨user_id, group_id⟩ db.user_groups = none := by
            cases hx : assocLookup ⟨user_id, group_id⟩ db.user_groups with
            | none => rfl
            | some w => exact absurd (by simp [assocContains, hx]) hdup
          have hins := assocInsert_of_lookup_none hnone
            (β := UserGroupProps) { access_level := Access.User, santa_id := 0 }
          refine ⟨hI.users_lt, hI.groups_lt, hI.groups_open, ?_, ?_, ?_, ?_⟩ <;>
            simp only [hins]
          · intro m hm
            rcases List.mem_cons.mp hm with hm | hm
            · rw [hm]; exact hu
            · exact hI.ref_user m hm
          · intro m hm
            rcases List.mem_cons.mp hm with hm | hm
            · rw [hm]; simp [hg]
            · exact hI.ref_group m hm
          · intro g
            rw [count_admins_cons]
            have hP : adminP g (⟨user_id, group_id⟩, ⟨Access.User, 0⟩) = false := by
              simp [adminP]
            rw [hP]
            simpa using hI.admin_le g
          · intro p hp
            rw [count_admins_cons]
            exact Nat.le_add_right_of_le (hI.admin_pos p hp)

theorem inv_group_unadmin (admin_id group_id : Id) {db : DataBase} (hI : Inv db) :
    Inv (group_unadmin admin_id group_id db).2 := by
  unfold group_unadmin
  split
  · exact hI
  next ugp hm =>
    split
    · exact hI
    next ha =>
      split
      · exact hI
      next hcnt =>
        exact absurd (Nat.lt_succ_of_le (hI.admin_le group_id)) hcnt

theorem inv_group_delete (admin_id group_id : Id) {db : DataBase} (hI : Inv db) :
    Inv (group_delete admin_id group_id db).2 := by
  unfold group_delete
  split
  · exact hI
  next ugp hm =>
    split
    · exact hI
    next ha =>
      refine ⟨hI.users_lt, ?_, ?_, ?_, ?_, ?_, ?_⟩ <;> simp only []
      · exact fun p hp => hI.groups_lt p (List.mem_of_mem_filter hp)
      · exact fun p hp => hI.groups_open p (List.mem_of_mem_filter hp)
      · exact fun m hm => hI.ref_user m (List.mem_of_mem_filter hm)
      · intro m hm
        have hne : m.1.group_id ≠ group_id := by
          have := (List.mem_filter.mp hm).2
          simpa using this
        unfold assocErase
        rw [assocLookup_filter (fun v => decide_eq_true hne)]
        exact hI.ref_group m (List.mem_of_mem_filter hm)
      · exact fun g => Nat.le_trans (count_admins_filter_le g _ _) (hI.admin_le g)
      · intro p hp
        have hpG := List.mem_of_mem_filter hp
        have hpne : p.1 ≠ group_id := by
          have := (List.mem_filter.mp hp).2
          simpa using this
        rw [count_admins_filter_eq]
        · exact hI.admin_pos p hpG
        · intro x hx hadm
          simp only [adminP, decide_eq_true_eq] at hadm
          exact decide_eq_true (hadm.1 ▸ hpne)

theorem inv_user_delete {u : Id} {db : DataBase} (hI : Inv db)
    {r : Resp × DataBase} (h : user_delete u db = some r) : Inv r.2 := by
  have hall : ((userMemberships u db.user_groups).all
      (fun x => (assocLookup x.1.group_id db.groups).isSome)) = true := by
    rw [List.all_eq_true]
    intro x hx
    exact hI.ref_group x (List.mem_of_mem_filter hx)
  have hopenEq : openMemberships u db = userMemberships u db.user_groups := by
    unfold openMemberships
    refine List.filter_eq_self.mpr fun x hx => ?_
    have hs := hI.ref_group x (List.mem_of_mem_filter hx)
    cases hlk : assocLookup x.1.group_id db.groups with
    | none => rw [hlk] at hs; simp at hs
    | some b =>
      have hb : b = false := hI.groups_open _ (assocLookup_some_mem hlk)
      rw [hb]
      simp
  have hclosedEq : closedMemberships u db = [] := by
    unfold closedMemberships
    rw [List.filter_eq_nil_iff]
    intro x hx
    simp only [decide_eq_true_eq]
    intro hlk
    have hb := hI.groups_open _ (assocLookup_some_mem hlk)
    simp at hb
  unfold user_delete at h
  split at h
  · cases h; exact hI
  · split at h
    · split at h
      · cases h; exact hI
      · split at h
        · -- success branch: blockingGroups u db = []
          next hb =>
          have hUser : ∀ x ∈ userMemberships u db.user_groups,
              x.2.access_level = Access.User := by
            intro x hx
            have hxo : x ∈ openMemberships u db := by rw [hopenEq]; exact hx
            unfold blockingGroups at hb
            have hnb := List.filter_eq_nil_iff.mp (List.map_eq_nil_iff.mp hb) x hxo
            simp only [decide_eq_true_eq, not_not] at hnb
            rcases hnb with h1 | h1
            · exact h1
            · exact absurd h1 (by have := hI.admin_le x.1.group_id; omega)
          have hdk : ∀ k ∈ deleteKeys u db, k.user_id = u := by
            intro k hk
            unfold deleteKeys at hk
            obtain ⟨x, hx, hxk⟩ := List.mem_map.mp hk
            have hxm : x ∈ userMemberships u db.user_groups := by
              rw [← hopenEq]; exact List.mem_of_mem_filter hx
            have hpred := (List.mem_filter.mp hxm).2
            simp only [decide_eq_true_eq] at hpred
            rw [← hxk]; exact hpred
          have hdk2 : ∀ x ∈ db.user_groups, x.1.user_id = u →
              x.1 ∈ deleteKeys u db := by
            intro x hx hxu
            have hxm : x ∈ userMemberships u db.user_groups :=
              List.mem_filter.mpr ⟨hx, decide_eq_true hxu⟩
            have hxo : x ∈ openMemberships u db := by rw [hopenEq]; exact hxm
            unfold deleteKeys
            refine List.mem_map.mpr ⟨x, ?_, rfl⟩
            refine List.mem_filter.mpr ⟨hxo, ?_⟩
            exact decide_eq_true (Or.inl (hUser x hxm))
          cases h
          refine ⟨?_, hI.groups_lt, hI.groups_open, ?_, ?_, ?_, ?_⟩ <;> simp only []
          · exact fun p hp => hI.users_lt p (List.mem_of_mem_filter hp)
          · intro m hm
            have hmL := List.mem_of_mem_filter hm
            have hmk : ¬ m.1 ∈ deleteKeys u db := by
              have hpred := (List.mem_filter.mp hm).2
              simpa using hpred
            have hmu : m.1.user_id ≠ u := fun hq => hmk (hdk2 m hmL hq)
            unfold assocErase
            rw [assocLookup_filter (fun v => decide_eq_true hmu)]
            exact hI.ref_user m hmL
          · exact fun m hm => hI.ref_group m (List.mem_of_mem_filter hm)
          · exact fun g => Nat.le_trans (count_admins_filter_le g _ _) (hI.admin_le g)
          · intro p hp
            rw [count_admins_filter_eq]
            · exact hI.admin_pos p hp
            · intro x hx hadm
              refine decide_eq_true ?_
              intro hxk
              have hxu : x.1.user_id = u := hdk x.1 hxk
              have hxm : x ∈ userMemberships u db.user_groups :=
                List.mem_filter.mpr ⟨hx, decide_eq_true hxu⟩
              have hxa := hUser x hxm
              simp only [adminP, decide_eq_true_eq] at hadm
              rw [hxa] at hadm
              exact Access.noConfusion hadm.2
        · cases h; exact hI
    · exact absurd hall (by assumption)

theorem inv_applyOp (op : Op) {db : DataBase} (hI : Inv db) : Inv (applyOp op db) := by
  cases op with
  | createUser name => exact inv_user_create name hI
  | createGroup c => exact inv_group_create c hI
  | joinGroup u g => exact inv_group_join u g hI
  | demoteAdmin a g => exact inv_group_unadmin a g hI
  | deleteGroup a g => exact inv_group_delete a g hI
  | deleteUser u =>
    show Inv (match user_delete u db with | some r => r.2 | none => db)
    split
    · next r h => exact inv_user_delete hI h
    · exact hI
  | listUsers => exact hI
  | listGroups => exact hI

theorem reachable_inv {db : DataBase} (h : Reachable db) : Inv db := by
  induction h with
  | init => exact Inv.emptyDB
  | step op _ ih => exact inv_applyOp op ih

/-! ## The user-id counter under arbitrary operations -/

/-- `/user/delete` either leaves the state unchanged (any failure) or removes
the marked memberships and the user record; in both cases the id counters are
untouched. -/
theorem user_delete_state {u : Id} {db : DataBase} {r : Resp × DataBase}
    (h : user_delete u db = some r) :
    r.2 = db ∨ r.2 = { db with
      user_groups := db.user_groups.filter (fun p => decide (p.1 ∉ deleteKeys u db)),
      users := assocErase u db.users } := by
  unfold user_delete at h
  split at h
  · cases h; exact Or.inl rfl
  · split at h
    · split at h
      · cases h; exact Or.inl rfl
      · split at h
        · cases h; exact Or.inr rfl
        · cases h; exact Or.inl rfl
    · exact Option.noConfusion h

/-- No operation ever decreases `users_max_id`. -/
theorem users_max_id_mono (op : Op) (db : DataBase) :
    db.users_max_id ≤ (applyOp op db).users_max_id := by
  cases op with
  | createUser name =>
    show db.users_max_id ≤ (user_create name db).2.users_max_id
    unfold user_create
    split
    · exact Nat.le_succ _
    · exact Nat.le_refl _
  | createGroup c =>
    show db.users_max_id ≤ (group_create c db).2.users_max_id
    unfold group_create
    split <;> exact Nat.le_refl _
  | joinGroup u g =>
    show db.users_max_id ≤ (group_join u g db).2.users_max_id
    unfold group_join
    split
    · exact Nat.le_refl _
    · split
      · exact Nat.le_refl _
      · split
        · exact Nat.le_refl _
        · split <;> exact Nat.le_refl _
  | demoteAdmin a g =>
    show db.users_max_id ≤ (group_unadmin a g db).2.users_max_id
    unfold group_unadmin
    split
    · exact Nat.le_refl _
    · split
      · exact Nat.le_refl _
      · split <;> exact Nat.le_refl _
  | deleteGroup a g =>
    show db.users_max_id ≤ (group_delete a g db).2.users_max_id
    unfold group_delete
    split
    · exact Nat.le_refl _
    · split <;> exact Nat.le_refl _
  | deleteUser u =>
    show db.users_max_id ≤
      (match user_delete u db with | some r => r.2 | none => db).users_max_id
    split
    · next r h =>
      rcases user_delete_state h with h2 | h2 <;> rw [h2]
    · exact Nat.le_refl _
  | listUsers => exact Nat.le_refl _
  | listGroups => exact Nat.le_refl _

/-- A successful `CreateUser` advances the counter by one; in that case the
returned id is the old counter value. -/
theorem user_create_success (name : String) (db : DataBase)
    (hn : 0 < name.length) :
    (user_create name db).1 = Resp.data db.users_max_id ∧
    (user_create name db).2.users_max_id = db.users_max_id + 1 := by
  unfold user_create
  rw [if_pos hn]
  exact ⟨rfl, rfl⟩

theorem createdIds_cons_createUser (name : String) (rest : List Op)
    (db : DataBase) :
    createdIds (Op.createUser name :: rest) db =
      if 0 < name.length then
        db.users_max_id :: createdIds rest (applyOp (Op.createUser name) db)
      else
        createdIds rest (applyOp (Op.createUser name) db) := by
  by_cases hn : 0 < name.length <;>
    simp [createdIds, user_create, hn]

/-- Every id a later sequence returns is at least the current counter. -/
theorem createdIds_lower_bound {ops : List Op} :
    ∀ {db : DataBase}, ∀ i ∈ createdIds ops db, db.users_max_id ≤ i := by
  induction ops with
  | nil => intro db i hi; simp [createdIds] at hi
  | cons op rest ih =>
    intro db i hi
    have hmono := users_max_id_mono op db
    cases op with
    | createUser name =>
      rw [createdIds_cons_createUser] at hi
      by_cases hn : 0 < name.length
      · rw [if_pos hn] at hi
        rcases List.mem_cons.mp hi with hi | hi
        · exact Nat.le_of_eq hi.symm
        · exact Nat.le_trans hmono (ih i hi)
      · rw [if_neg hn] at hi
        exact Nat.le_trans hmono (ih i hi)
    | createGroup c =>
      simp only [createdIds] at hi
      exact Nat.le_trans hmono (ih i hi)
    | joinGroup u g =>
      simp only [createdIds] at hi
      exact Nat.le_trans hmono (ih i hi)
    | demoteAdmin a g =>
      simp only [createdIds] at hi
      exact Nat.le_trans hmono (ih i hi)
    | deleteGroup a g =>
      simp only [createdIds] at hi
      exact Nat.le_trans hmono (ih i hi)
    | deleteUser u =>
      simp only [createdIds] at hi
      exact Nat.le_trans hmono (ih i hi)
    | listUsers =>
      simp only [createdIds] at hi
      exact Nat.le_trans hmono (ih i hi)
    | listGroups =>
      simp only [createdIds] at hi
      exact Nat.le_trans hmono (ih i hi)

theorem applyOp_createUser_max (name : String) (db : DataBase)
    (hn : 0 < name.length) :
    (applyOp (Op.createUser name) db).users_max_id = db.users_max_id + 1 := by
  show (user_create name db).2.users_max_id = _
  unfold user_create
  rw [if_pos hn]

/-! ## The claims -/

/-- C1: `JoinGroup` applies its failure checks in exactly the order group
existence → group closedness → user existence → duplicate membership, each
with its documented error and no mutation, and when all four pass it inserts
the membership `(userId, groupId) ↦ {User, sentinel 0}` and succeeds with no
payload.  Each conjunct fixes the outcomes of exactly the checks preceding it,
so together they pin down the order of the checks. -/
theorem join_checks_in_order (user_id group_id : Id) (db : DataBase) :
    (assocLookup group_id db.groups = none →
      group_join user_id group_id db = (Resp.error "no such group", db)) ∧
    (assocLookup group_id db.groups = some true →
      group_join user_id group_id db = (Resp.error "group is closed", db)) ∧
    (assocLookup group_id db.groups = some false →
      assocContains user_id db.users = false →
      group_join user_id group_id db = (Resp.error "no such user", db)) ∧
    (assocLookup group_id db.groups = some false →
      assocContains user_id db.users = true →
      assocContains ⟨user_id, group_id⟩ db.user_groups = true →
      group_join user_id group_id db = (Resp.error "user already in group", db)) ∧
    (assocLookup group_id db.groups = some false →
      assocContains user_id db.users = true →
      assocContains ⟨user_id, group_id⟩ db.user_groups = false →
      group_join user_id group_id db = (Resp.empty,
        { db with
          user_groups :=
            assocInsert ⟨user_id, group_id⟩
              (⟨Access.User, 0⟩ : UserGroupProps) db.user_groups })) := by
  refine ⟨?_, ?_, ?_, ?_, ?_⟩
  · intro h1; simp [group_join, h1]
  · intro h1; simp [group_join, h1]
  · intro h1 h2; simp [group_join, h1, h2]
  · intro h1 h2 h3; simp [group_join, h1, h2, h3]
  · intro h1 h2 h3; simp [group_join, h1, h2, h3]

theorem join_checks_in_order_witness :
    group_join 0 0 emptyDB = (Resp.error "no such group", emptyDB) :=
  (join_checks_in_order 0 0 emptyDB).1 rfl

/-- C4: when `(actingAdminId, groupId)` is an Admin membership and the group
has fewer than two admins, `DemoteAdmin` fails with the last-admin message and
leaves the database — the membership and its access level included —
unchanged. -/
theorem unadmin_last_admin_fails (db : DataBase) (a g : Id) (props : UserGroupProps)
    (hmem : assocLookup ⟨a, g⟩ db.user_groups = some props)
    (hadmin : props.access_level = Access.Admin)
    (hcount : count_admins g db.user_groups < 2) :
    group_unadmin a g db =
      (Resp.error "It is impossible to remove the last admin in a group. You can appoint a new admin and repeat or delete the whole group.", db) := by
  unfold group_unadmin
  split
  · next heq => rw [heq] at hmem; exact Option.noConfusion hmem
  · next ugp heq =>
    rw [heq] at hmem
    have hup : ugp = props := Option.some.inj hmem
    subst hup
    rw [if_neg (fun hn => hn hadmin), if_pos hcount]

theorem unadmin_last_admin_fails_witness :
    group_unadmin 0 0 dbLastAdmin =
      (Resp.error "It is impossible to remove the last admin in a group. You can appoint a new admin and repeat or delete the whole group.", dbLastAdmin) :=
  unadmin_last_admin_fails dbLastAdmin 0 0 ⟨Access.Admin, 0⟩ (by decide) rfl (by decide)

/-- C8: `DeleteGroup` fails with the membership error when the caller has no
membership of the group, fails with the admin error when the caller's
membership is not Admin (the same two checks as `DemoteAdmin`, and no
last-admin check appears), and when the caller is an Admin member it succeeds
with no payload, after which the group id is gone from the group map and no
membership of that group remains. -/
theorem group_delete_spec (db : DataBase) (a g : Id) :
    (assocLookup ⟨a, g⟩ db.user_groups = none →
      group_delete a g db =
        (Resp.error "User does not belong to this group. Try again.", db)) ∧
    (∀ props, assocLookup ⟨a, g⟩ db.user_groups = some props →
      props.access_level ≠ Access.Admin →
      group_delete a g db = (Resp.error "This user is not an admin.", db)) ∧
    (∀ props, assocLookup ⟨a, g⟩ db.user_groups = some props →
      props.access_level = Access.Admin →
      (group_delete a g db).1 = Resp.empty ∧
      assocLookup g (group_delete a g db).2.groups = none ∧
      ∀ m ∈ (group_delete a g db).2.user_groups, m.1.group_id ≠ g) := by
  refine ⟨?_, ?_, ?_⟩
  · intro h1; simp [group_delete, h1]
  · intro props h1 h2; simp [group_delete, h1, h2]
  · intro props h1 h2
    have hred : group_delete a g db = (Resp.empty,
        { db with
          user_groups := db.user_groups.filter (fun p => decide (p.1.group_id ≠ g)),
          groups := assocErase g db.groups }) := by
      simp [group_delete, h1, h2]
    refine ⟨by rw [hred], ?_, ?_⟩
    · rw [hred]
      refine assocLookup_eq_none_iff.mpr fun p hp => ?_
      have := (List.mem_filter.mp hp).2
      simpa [assocErase] using this
    · rw [hred]
      intro m hm
      have := (List.mem_filter.mp hm).2
      simpa using this

/-- C2: in any state where the user exists, the user's memberships reference
existing groups (the referential invariant of §3; it holds in every reachable
state, see C10, and without it the Rust iteration would panic), and the user
has at least one membership in a closed group, `DeleteUser` fails with the
closed-group `ConflictError` and performs no mutation at all: the returned
state is the input state, so the user record and every membership of every
group survive. -/
theorem user_delete_closed_group_blocks (db : DataBase) (u g : Id)
    (props : UserGroupProps)
    (hwf : ∀ m ∈ db.user_groups, m.1.user_id = u →
      (assocLookup m.1.group_id db.groups).isSome = true)
    (hu : (assocLookup u db.users).isSome = true)
    (hmem : (⟨u, g⟩, props) ∈ db.user_groups)
    (hclosed : assocLookup g db.groups = some true) :
    user_delete u db =
      some (Resp.error "User have closed groups. So he was deleted from opened groups.", db) := by
  have hall : ((userMemberships u db.user_groups).all
      (fun x => (assocLookup x.1.group_id db.groups).isSome)) = true := by
    rw [List.all_eq_true]
    intro x hx
    have hxu := (List.mem_filter.mp hx).2
    simp only [decide_eq_true_eq] at hxu
    exact hwf x (List.mem_of_mem_filter hx) hxu
  have hclmem : (⟨u, g⟩, props) ∈ closedMemberships u db := by
    unfold closedMemberships
    refine List.mem_filter.mpr ⟨?_, ?_⟩
    · exact List.mem_filter.mpr ⟨hmem, by simp⟩
    · simpa using hclosed
  have hpos : 0 < (closedMemberships u db).length :=
    List.length_pos_of_mem hclmem
  unfold user_delete
  split
  · next heq => rw [heq] at hu; exact absurd hu (by simp)
  · next nm heq => rw [if_pos hall, if_pos hpos]

theorem user_delete_closed_group_blocks_witness :
    user_delete 0 dbClosedOnly =
      some (Resp.error "User have closed groups. So he was deleted from opened groups.", dbClosedOnly) :=
  user_delete_closed_group_blocks dbClosedOnly 0 0 ⟨Access.User, 0⟩
    (by decide) (by decide) (by decide) (by decide)

/-- C3 counterexample: in `dbClosedAndSole` user 0 exists and is the sole
Admin of the open group 1 (the blocking groups are exactly `[1]`), yet
`DeleteUser 0` does not fail with the `ConflictError` enumerating the blocking
group ids: the closed-group check runs first, so the closed-group message —
different from the enumerating message — is returned. -/
theorem user_delete_sole_admin_cex :
    (assocLookup (0 : Id) dbClosedAndSole.users).isSome = true ∧
    (⟨0, 1⟩, (⟨Access.Admin, 0⟩ : UserGroupProps)) ∈ dbClosedAndSole.user_groups ∧
    assocLookup (1 : Id) dbClosedAndSole.groups = some false ∧
    count_admins 1 dbClosedAndSole.user_groups = 1 ∧
    blockingGroups 0 dbClosedAndSole = [1] ∧
    user_delete 0 dbClosedAndSole =
      some (Resp.error "User have closed groups. So he was deleted from opened groups.",
        dbClosedAndSole) ∧
    "User have closed groups. So he was deleted from opened groups." ≠
      soleAdminMsg [1] := by
  decide

/-- C3 (amended): for every state in which the user exists, every membership
of the user is in an existing **open** group — the restriction the
counterexample forces, since the closed-group check precedes the
sole-admin check — and the user is the sole Admin of at least one group,
`DeleteUser` fails with the `ConflictError` whose message enumerates the
blocking group ids, which are exactly the ids of groups where the user is an
Admin member and the admin count is below two, and performs no mutation, even
when the user also has other, removable memberships. -/
theorem user_delete_sole_admin_blocks (db : DataBase) (u : Id)
    (hu : (assocLookup u db.users).isSome = true)
    (hopen : ∀ m ∈ db.user_groups, m.1.user_id = u →
      assocLookup m.1.group_id db.groups = some false)
    (hsole : ∃ x ∈ db.user_groups, x.1.user_id = u ∧
      x.2.access_level = Access.Admin ∧
      count_admins x.1.group_id db.user_groups < 2) :
    user_delete u db = some (Resp.error (soleAdminMsg (blockingGroups u db)), db) ∧
    ∀ g : Id, g ∈ blockingGroups u db ↔
      ∃ x ∈ db.user_groups, x.1.user_id = u ∧ x.1.group_id = g ∧
        x.2.access_level = Access.Admin ∧
        count_admins g db.user_groups < 2 := by
  have hopenEq : openMemberships u db = userMemberships u db.user_groups := by
    unfold openMemberships
    refine List.filter_eq_self.mpr fun x hx => ?_
    have hxu := (List.mem_filter.mp hx).2
    simp only [decide_eq_true_eq] at hxu
    have := hopen x (List.mem_of_mem_filter hx) hxu
    simp [this]
  have hclosedEq : closedMemberships u db = [] := by
    unfold closedMemberships
    rw [List.filter_eq_nil_iff]
    intro x hx
    have hxu := (List.mem_filter.mp hx).2
    simp only [decide_eq_true_eq] at hxu
    have := hopen x (List.mem_of_mem_filter hx) hxu
    simp [this]
  have hiff : ∀ g : Id, g ∈ blockingGroups u db ↔
      ∃ x ∈ db.user_groups, x.1.user_id = u ∧ x.1.group_id = g ∧
        x.2.access_level = Access.Admin ∧
        count_admins g db.user_groups < 2 := by
    intro g
    constructor
    · intro hg
      unfold blockingGroups at hg
      obtain ⟨x, hx, hxg⟩ := List.mem_map.mp hg
      have hxo := List.mem_of_mem_filter hx
      have hpred := (List.mem_filter.mp hx).2
      rw [hopenEq] at hxo
      have hxL := List.mem_of_mem_filter hxo
      have hxu := (List.mem_filter.mp hxo).2
      simp only [decide_eq_true_eq] at hxu hpred
      push_neg at hpred
      obtain ⟨hnu, hcnt⟩ := hpred
      have hadm : x.2.access_level = Access.Admin := by
        cases hacc : x.2.access_level with
        | User => exact absurd hacc hnu
        | Admin => rfl
      exact ⟨x, hxL, hxu, hxg, hadm, by subst hxg; omega⟩
    · rintro ⟨x, hxL, hxu, hxg, hadm, hcnt⟩
      have hxm : x ∈ userMemberships u db.user_groups :=
        List.mem_filter.mpr ⟨hxL, decide_eq_true hxu⟩
      have hxo : x ∈ openMemberships u db := by rw [hopenEq]; exact hxm
      unfold blockingGroups
      refine List.mem_map.mpr ⟨x, List.mem_filter.mpr ⟨hxo, ?_⟩, hxg⟩
      refine decide_eq_true ?_
      rintro (hus | hgt)
      · rw [hadm] at hus; exact Access.noConfusion hus
      · rw [hxg] at hgt; omega
  have hblock : blockingGroups u db ≠ [] := by
    obtain ⟨x, hxL, hxu, hadm, hcnt⟩ := hsole
    exact List.ne_nil_of_mem ((hiff x.1.group_id).mpr ⟨x, hxL, hxu, rfl, hadm, hcnt⟩)
  refine ⟨?_, hiff⟩
  have hall : ((userMemberships u db.user_groups).all
      (fun x => (assocLookup x.1.group_id db.groups).isSome)) = true := by
    rw [List.all_eq_true]
    intro x hx
    have hxu := (List.mem_filter.mp hx).2
    simp only [decide_eq_true_eq] at hxu
    rw [hopen x (List.mem_of_mem_filter hx) hxu]
    rfl
  unfold user_delete
  split
  · next heq => rw [heq] at hu; exact absurd hu (by simp)
  · next nm heq =>
    rw [if_pos hall, hclosedEq]
    rw [if_neg (by simp), if_neg hblock]

theorem user_delete_sole_admin_blocks_witness :
    user_delete 0 dbSoleAdmin =
      some (Resp.error (soleAdminMsg (blockingGroups 0 dbSoleAdmin)), dbSoleAdmin) :=
  (user_delete_sole_admin_blocks dbSoleAdmin 0 (by decide) (by decide) (by decide)).1

theorem group_delete_spec_witness :
    (group_delete 0 0 dbAdminAndMember).1 = Resp.empty ∧
    assocLookup 0 (group_delete 0 0 dbAdminAndMember).2.groups = none :=
  have h := (group_delete_spec dbAdminAndMember 0 0).2.2 ⟨Access.Admin, 0⟩
    (by decide) rfl
  ⟨h.1, h.2.1⟩

/-- C5: in every state reachable from the empty database by the documented
operations, every group that has at least one membership has at least one
Admin membership — no operation sequence drops a non-empty group's admin
count to zero. -/
theorem reachable_nonempty_group_has_admin {db : DataBase} (h : Reachable db) :
    ∀ m ∈ db.user_groups, 1 ≤ count_admins m.1.group_id db.user_groups := by
  intro m hm
  have hI := reachable_inv h
  obtain ⟨p, hp, hpk⟩ := assocLookup_isSome_iff.mp (hI.ref_group m hm)
  exact hpk ▸ hI.admin_pos p hp

theorem reachable_nonempty_group_has_admin_witness :
    1 ≤ count_admins 0 dbTwoSteps.user_groups :=
  reachable_nonempty_group_has_admin
    (Reachable.step (Op.createGroup 0) (Reachable.step (Op.createUser "a") Reachable.init))
    (⟨0, 0⟩, ⟨Access.Admin, 0⟩) (by decide)

/-- C6: in every state reachable from the empty database by the documented
operations, no group ever has two or more Admin memberships: only
`CreateGroup` creates an Admin membership (one, for the fresh group), and no
operation promotes a User membership, so `CountAdmins ≥ 2` is unreachable. -/
theorem reachable_count_admins_lt_two {db : DataBase} (h : Reachable db)
    (g : Id) : ¬ 2 ≤ count_admins g db.user_groups := by
  have := (reachable_inv h).admin_le g
  omega

theorem reachable_count_admins_lt_two_witness :
    ¬ 2 ≤ count_admins 0 dbTwoSteps.user_groups :=
  reachable_count_admins_lt_two
    (Reachable.step (Op.createGroup 0) (Reachable.step (Op.createUser "a") Reachable.init))
    0

/-- C7: for every operation sequence, from any start state, the ids returned
by the successful `CreateUser` calls are strictly increasing and never repeat,
even with `DeleteUser` calls interleaved: every handler leaves `users_max_id`
unchanged or increments it, and the counter — not the current user map —
supplies the next id, so a deleted user's id is never handed out again. -/
theorem created_user_ids_strictly_increasing (ops : List Op) (db : DataBase) :
    List.Pairwise (fun a b : Id => a < b) (createdIds ops db) ∧
    (createdIds ops db).Nodup := by
  have hp : ∀ (ops2 : List Op) (db2 : DataBase),
      List.Pairwise (fun a b : Id => a < b) (createdIds ops2 db2) := by
    intro ops2
    induction ops2 with
    | nil => intro db2; simp [createdIds]
    | cons op rest ih =>
      intro db2
      cases op with
      | createUser name =>
        rw [createdIds_cons_createUser]
        by_cases hn : 0 < name.length
        · rw [if_pos hn]
          refine List.Pairwise.cons ?_ (ih _)
          intro b hb
          have h1 := createdIds_lower_bound b hb
          rw [applyOp_createUser_max name db2 hn] at h1
          exact Nat.lt_of_succ_le h1
        · rw [if_neg hn]; exact ih _
      | createGroup c => simp only [createdIds]; exact ih _
      | joinGroup u g => simp only [createdIds]; exact ih _
      | demoteAdmin a g => simp only [createdIds]; exact ih _
      | deleteGroup a g => simp only [createdIds]; exact ih _
      | deleteUser u => simp only [createdIds]; exact ih _
      | listUsers => simp only [createdIds]; exact ih _
      | listGroups => simp only [createdIds]; exact ih _
  exact ⟨hp ops db, List.Pairwise.imp (fun h => Nat.ne_of_lt h) (hp ops db)⟩

/-- C10: in every state reachable from the empty database by the documented
operations, every membership key references a user present in the user map and
a group present in the group map — referential integrity holds after every
operation, not only at membership creation. -/
theorem reachable_referential_integrity {db : DataBase} (h : Reachable db) :
    ∀ m ∈ db.user_groups, (assocLookup m.1.user_id db.users).isSome = true ∧
      (assocLookup m.1.group_id db.groups).isSome = true :=
  fun m hm => ⟨(reachable_inv h).ref_user m hm, (reachable_inv h).ref_group m hm⟩

theorem reachable_referential_integrity_witness :
    (assocLookup (0 : Id) dbTwoSteps.users).isSome = true ∧
    (assocLookup (0 : Id) dbTwoSteps.groups).isSome = true :=
  reachable_referential_integrity
    (Reachable.step (Op.createGroup 0) (Reachable.step (Op.createUser "a") Reachable.init))
    (⟨0, 0⟩, ⟨Access.Admin, 0⟩) (by decide)

/-- C9: contrary to the claim, field extraction can panic.  `get_field` chains
`unwrap` calls (`object.get(key).unwrap().as_str().unwrap().parse().unwrap()`),
so an id field that is missing, non-string, or not an unsigned-integer string
crashes the process instead of yielding a structured client error; `none` in
the model marks each such panic, while a well-formed field still parses.  The
spec itself records this defect of the original in §9. -/
theorem get_field_panics_on_bad_input :
    get_field [("user_id", Json.str "abc"), ("group_id", Json.str "0")]
      "user_id" = none ∧
    get_field [("group_id", Json.str "0")] "user_id" = none ∧
    get_field [("user_id", Json.num 7)] "user_id" = none ∧
    get_field [("user_id", Json.str "41")] "user_id" = some 41 := by
  decide

end Santa
